import Mathlib

/-!
Shallow embedding of `gosr/tools/tssd.py`: TSS read-density accumulation and
fragment-size estimation.  Genomic coordinates are `Int`, counts are `Nat`,
and the distance computations of the fragment-size search are carried out over
an arbitrary linearly ordered commutative ring (the source applies them to
machine integer and floating point arrays; minima, argminima and ties of the
source's `numpy.sqrt`-based Euclidean distance coincide with those of the
squared distance modelled here, since square root is strictly monotone on
nonnegatives).
-/

namespace Gosr

/-- Model of `HTSeq.GenomicInterval`: half-open interval `[start, stop)` on a
chromosome with a strand symbol (the source's `end` field is called `stop`
here because `end` is a Lean keyword). -/
structure GenomicInterval where
  chrom : String
  start : Int
  stop : Int
  strand : String
deriving DecidableEq, Repr

/-- Model of HTSeq's `start_d`: the start of the interval in the direction of
the strand (`start` unless the strand is `"-"`, in which case `stop - 1`). -/
def GenomicInterval.start_d (iv : GenomicInterval) : Int :=
  if iv.strand = "-" then iv.stop - 1 else iv.start

/-- Two intervals overlap when they are on the same chromosome and their
half-open ranges intersect. -/
def overlaps (a b : GenomicInterval) : Bool :=
  decide (a.chrom = b.chrom ∧ a.start < b.stop ∧ b.start < a.stop)

/-- Model of the unstranded `GenomicArray` with typecode `'O'` used by the
source as its interval index: the list of intervals stored so far (the source
stores each claimed window as its own value, so keeping the intervals is the
whole state). -/
abbrev IntervalIndex := List GenomicInterval

/-- Source `overlaps_any(garray, iv)`: `garray[iv].steps()` yields more than
one step, or a single step with a non-`None` value, exactly when some stored
interval intersects `iv` on the same chromosome. -/
def overlaps_any (garray : IntervalIndex) (iv : GenomicInterval) : Bool :=
  garray.any (fun w => overlaps w iv)

/-- Point query `garray[pos]` of the index: the stored interval covering the
position on the given chromosome, if any (stored intervals are disjoint, so
`find?` returns the unique cover). -/
def query (garray : IntervalIndex) (chrom : String) (pos : Int) : Option GenomicInterval :=
  garray.find? (fun w => decide (w.chrom = chrom ∧ w.start ≤ pos ∧ pos < w.stop))

/-- The claim-if-free insertion performed by the source at
`if not overlaps_any(tsspos, window): tsspos[window] = window`: on overlap the
index is returned unchanged with `false`; otherwise the window is stored and
`true` is returned. -/
def tryClaim (garray : IntervalIndex) (iv : GenomicInterval) : IntervalIndex × Bool :=
  if overlaps_any garray iv then (garray, false) else (iv :: garray, true)

/-- Model of an annotation (GTF) feature: its `type`, its attribute map, and
its genomic interval. -/
structure Feature where
  type : String
  attr : List (String × String)
  iv : GenomicInterval
deriving DecidableEq, Repr

/-- Dictionary lookup `feature.attr[key]`, returning `none` where Python would
raise `KeyError`. -/
def attrLookup (attr : List (String × String)) (key : String) : Option String :=
  (attr.find? (fun p => p.1 = key)).map (·.2)

/-- Fatal errors of `gtf_to_tsspos`: a strand other than `+`/`-` on a selected
first-exon feature (source logs the 1-based feature index and the strand, then
`sys.exit(1)`), or a selected exon feature without the `exon_number`
attribute (Python `KeyError`). -/
inductive GtfError where
  | badStrand (featIndex : Nat) (strand : String)
  | missingAttr (featIndex : Nat) (key : String)
deriving DecidableEq, Repr

/-- The loop state of `gtf_to_tsspos`: the interval index and the three
counters `n_feat`, `n_tss`, `n_used`. -/
structure TssState where
  tsspos : IntervalIndex
  n_feat : Nat
  n_tss : Nat
  n_used : Nat
deriving DecidableEq, Repr

/-- Initial state of `gtf_to_tsspos`: empty index, all counters zero. -/
def tssInit : TssState := ⟨[], 0, 0, 0⟩

/-- One iteration of the feature loop of `gtf_to_tsspos`: count the feature;
if it is a first exon, derive the TSS window from `start_d_as_pos` and the
strand, abort on a bad strand, and claim the window if it does not overlap a
previously claimed one (incrementing `n_used` exactly on success). -/
def tssStep (upstream downstream : Int) (st : TssState) (f : Feature) :
    Except GtfError TssState :=
  let n_feat := st.n_feat + 1
  if f.type = "exon" then
    match attrLookup f.attr "exon_number" with
    | none => .error (.missingAttr n_feat "exon_number")
    | some en =>
      if en = "1" then
        let n_tss := st.n_tss + 1
        let p := f.iv.start_d
        if f.iv.strand = "+" then
          let w : GenomicInterval := ⟨f.iv.chrom, p - upstream, p + downstream + 1, "+"⟩
          let c := tryClaim st.tsspos w
          .ok ⟨c.1, n_feat, n_tss, st.n_used + (if c.2 then 1 else 0)⟩
        else if f.iv.strand = "-" then
          let w : GenomicInterval := ⟨f.iv.chrom, p - downstream, p + upstream + 1, "-"⟩
          let c := tryClaim st.tsspos w
          .ok ⟨c.1, n_feat, n_tss, st.n_used + (if c.2 then 1 else 0)⟩
        else
          .error (.badStrand n_feat f.iv.strand)
      else
        .ok ⟨st.tsspos, n_feat, st.n_tss, st.n_used⟩
  else
    .ok ⟨st.tsspos, n_feat, st.n_tss, st.n_used⟩

/-- Source `gtf_to_tsspos(gtf, upstream, downstream)`: fold the feature stream
through `tssStep` and return the index of claimed windows together with
`n_used`. -/
def gtf_to_tsspos (gtf : List Feature) (upstream downstream : Int) :
    Except GtfError (IntervalIndex × Nat) :=
  (gtf.foldlM (tssStep upstream downstream) tssInit).map (fun st => (st.tsspos, st.n_used))

/-- Model of an alignment record: HTSeq's `aligned` flag and the read's
interval (whose `start_d` is the 5′-most aligned base). -/
structure Alignment where
  aligned : Bool
  iv : GenomicInterval
deriving DecidableEq, Repr

/-- Abort conditions of `make_density`: the `IndexError` handler (which logs
`pos_in_window`, the window and the read, then `sys.exit(1)`), and the
`KeyError` a strand symbol outside `locd`'s keys would raise. -/
inductive DensityError where
  | indexOutOfBounds (pos_in_window : Nat) (tss : GenomicInterval) (aln : GenomicInterval)
  | badStrandPair (windowStrand readStrand : String)
deriving DecidableEq, Repr

/-- The loop state of `make_density`: the two count arrays `d['left']` and
`d['right']` plus the counters `n_reads` and `n_reads_on_tss`. -/
structure DensityState where
  left : List Nat
  right : List Nat
  n_reads : Nat
  n_reads_on_tss : Nat
deriving DecidableEq, Repr

/-- Source lookup table `locd`, keyed by (window strand, read strand):
`(+,+) → left`, `(+,−) → right`, `(−,+) → right`, `(−,−) → left`; any other
pair is absent from the dictionary. -/
def locd (windowStrand readStrand : String) : Option String :=
  if windowStrand = "+" then
    if readStrand = "+" then some "left"
    else if readStrand = "-" then some "right"
    else none
  else if windowStrand = "-" then
    if readStrand = "+" then some "right"
    else if readStrand = "-" then some "left"
    else none
  else none

/-- Increment the entry at index `i` (the in-bounds case of
`d[loc][pos_in_window] += 1`; callers check the bound first, as the source's
`try`/`except IndexError` does). -/
def incAt : List Nat → Nat → List Nat
  | [], _ => []
  | x :: xs, 0 => (x + 1) :: xs
  | x :: xs, n + 1 => x :: incAt xs n

/-- One iteration of the alignment loop of `make_density`: skip unaligned
records; count aligned ones; query the index at the read's 5′ position; on a
hit, bump the bucket `|start_d(read) − start_d(window)|` of the array chosen
by `locd`, aborting (as the source's `except IndexError: ... sys.exit(1)`
does) when the bucket index is out of bounds. -/
def densityStep (tsspos : IntervalIndex) (st : DensityState) (aln : Alignment) :
    Except DensityError DensityState :=
  if aln.aligned then
    match query tsspos aln.iv.chrom aln.iv.start_d with
    | none => .ok ⟨st.left, st.right, st.n_reads + 1, st.n_reads_on_tss⟩
    | some tss =>
      match locd tss.strand aln.iv.strand with
      | none => .error (.badStrandPair tss.strand aln.iv.strand)
      | some loc =>
        if loc = "left" then
          if (aln.iv.start_d - tss.start_d).natAbs < st.left.length then
            .ok ⟨incAt st.left (aln.iv.start_d - tss.start_d).natAbs, st.right,
              st.n_reads + 1, st.n_reads_on_tss + 1⟩
          else
            .error (.indexOutOfBounds (aln.iv.start_d - tss.start_d).natAbs tss aln.iv)
        else
          if (aln.iv.start_d - tss.start_d).natAbs < st.right.length then
            .ok ⟨st.left, incAt st.right (aln.iv.start_d - tss.start_d).natAbs,
              st.n_reads + 1, st.n_reads_on_tss + 1⟩
          else
            .error (.indexOutOfBounds (aln.iv.start_d - tss.start_d).natAbs tss aln.iv)
  else
    .ok st

/-- Initial state of `make_density`: both arrays are `numpy.zeros(up+down+1)`
and the counters are zero. -/
def densityInit (up down : Nat) : DensityState :=
  ⟨List.replicate (up + down + 1) 0, List.replicate (up + down + 1) 0, 0, 0⟩

/-- Source `make_density(tsspos, bamfile, up, down)`: fold the alignment
stream through `densityStep`. -/
def make_density (tsspos : IntervalIndex) (bamfile : List Alignment) (up down : Nat) :
    Except DensityError DensityState :=
  bamfile.foldlM (densityStep tsspos) (densityInit up down)

/-- Squared Euclidean distance between two equal-length vectors: the source's
`dist(x, y) = numpy.sqrt(numpy.sum(numpy.power(x - y, 2)))` without the final
square root.  Square root is strictly monotone on nonnegatives, so every
minimum, argmin and tie of the source's distances coincides with those of this
squared distance; modelling the square kept the development executable. -/
def dist_sq {α : Type} [LinearOrderedCommRing α] (x y : List α) : α :=
  (List.zipWith (fun a b => (a - b) ^ 2) x y).sum

/-- Python's `min` over a nonempty list (a left fold of binary `min` over the
tail; the `[]` case is unreachable in the source, which would raise there). -/
def pyMin {α : Type} [LinearOrderedCommRing α] : List α → α
  | [] => 0
  | a :: l => l.foldl min a

/-- The distance the source's shift loop records for candidate shift `i`:
with `n = len(x) - 2*extra - 1`, `b1 = extra - i + 1` and `b2 = extra + i + 1`,
the (squared) distance between `x[b1 : b1+n]` and `y[b2 : b2+n]`. -/
def peak_dist_at {α : Type} [LinearOrderedCommRing α] (x y : List α) (extra i : ℕ) : α :=
  let n := x.length - (2 * extra + 1)
  dist_sq ((x.drop (extra - i + 1)).take n) ((y.drop (extra + i + 1)).take n)

/-- The `peak_dist` list built by `determine_frag_size` for the candidate
shifts `0, 1, ..., extra`. -/
def peak_dists {α : Type} [LinearOrderedCommRing α] (x y : List α) (extra : ℕ) : List α :=
  (List.range (extra + 1)).map (peak_dist_at x y extra)

/-- Source `optimal_shift = [(s, d) for s, d in zip(shift, peak_dist) if
d == min(peak_dist)]`: the candidates attaining the minimal distance, in
increasing order of shift. -/
def optimal_shift {α : Type} [LinearOrderedCommRing α] (x y : List α) (extra : ℕ) :
    List (ℕ × α) :=
  let m := pyMin (peak_dists x y extra)
  ((List.range (extra + 1)).map (fun i => (i, peak_dist_at x y extra i))).filter
    (fun sd => decide (sd.2 = m))

/-- Source `determine_frag_size(density, extra)`: twice the shift of the first
(smallest) optimal candidate, `optimal_shift[0][0] * 2`. -/
def determine_frag_size {α : Type} [LinearOrderedCommRing α] (x y : List α) (extra : ℕ) : ℕ :=
  ((optimal_shift x y extra).headD (0, 0)).1 * 2

/-- The `logging.warn` emitted when more than one shift attains the minimum:
the source passes the whole `optimal_shift` list to the warning and then
continues; `none` models the absence of a warning. -/
def frag_size_warning {α : Type} [LinearOrderedCommRing α] (x y : List α) (extra : ℕ) :
    Option (List (ℕ × α)) :=
  if 1 < (optimal_shift x y extra).length then some (optimal_shift x y extra) else none

/-- Follows the spec's words (§4.4), for comparison with the source: with
`L = N + 2E`, `distance(s)` is the (squared) Euclidean distance between
`left[E−s : E−s+N]` and `right[E+s : E+s+N]`. -/
def specPeakDistAt {α : Type} [LinearOrderedCommRing α] (x y : List α) (extra i : ℕ) : α :=
  let n := x.length - 2 * extra
  dist_sq ((x.drop (extra - i)).take n) ((y.drop (extra + i)).take n)

/-- Follows the spec's words (§4.4), for comparison with the source: the list
of spec distances over shifts `0..E`. -/
def specPeakDists {α : Type} [LinearOrderedCommRing α] (x y : List α) (extra : ℕ) : List α :=
  (List.range (extra + 1)).map (specPeakDistAt x y extra)

/-- Follows the spec's words (§4.4), for comparison with the source:
`fragment_size = 2 * s*` with `s*` the smallest argmin of the spec
distances. -/
def specFragSize {α : Type} [LinearOrderedCommRing α] (x y : List α) (extra : ℕ) : ℕ :=
  let m := pyMin (specPeakDists x y extra)
  ((((List.range (extra + 1)).map (fun i => (i, specPeakDistAt x y extra i))).filter
    (fun sd => decide (sd.2 = m))).headD (0, 0)).1 * 2

/-- Disjointness of the stored intervals, as used by the non-overlap
invariant. -/
def PairwiseDisjoint (g : IntervalIndex) : Prop :=
  g.Pairwise (fun a b => overlaps a b = false)

/-- IEEE-754-style value classes produced by the renderer's floating-point
arithmetic: a finite value (modelled exactly as a rational), the two
infinities, and NaN.  Signed zero is not distinguished; no claim depends on
it. -/
inductive PyFloat where
  | fin (q : ℚ)
  | inf
  | neginf
  | nan
deriving DecidableEq, Repr

/-- IEEE addition on the value classes (NaN propagates; `inf + neginf` is
NaN). -/
def pyadd : PyFloat → PyFloat → PyFloat
  | .nan, _ => .nan
  | _, .nan => .nan
  | .inf, .neginf => .nan
  | .neginf, .inf => .nan
  | .inf, _ => .inf
  | _, .inf => .inf
  | .neginf, _ => .neginf
  | _, .neginf => .neginf
  | .fin a, .fin b => .fin (a + b)

/-- IEEE multiplication on the value classes (NaN propagates; `inf * 0` is
NaN). -/
def pymul : PyFloat → PyFloat → PyFloat
  | .nan, _ => .nan
  | _, .nan => .nan
  | .inf, .inf => .inf
  | .inf, .neginf => .neginf
  | .neginf, .inf => .neginf
  | .neginf, .neginf => .inf
  | .inf, .fin b => if b = 0 then .nan else if 0 < b then .inf else .neginf
  | .fin a, .inf => if a = 0 then .nan else if 0 < a then .inf else .neginf
  | .neginf, .fin b => if b = 0 then .nan else if 0 < b then .neginf else .inf
  | .fin a, .neginf => if a = 0 then .nan else if 0 < a then .neginf else .inf
  | .fin a, .fin b => .fin (a * b)

/-- IEEE division on the value classes, the semantics numpy applies inside
`output` (with a runtime warning, not an exception): `0/0` is NaN, `x/0` for
`x ≠ 0` is a signed infinity, `inf/inf` is NaN, `x/inf` is zero. -/
def pydiv : PyFloat → PyFloat → PyFloat
  | .nan, _ => .nan
  | _, .nan => .nan
  | .inf, .inf => .nan
  | .inf, .neginf => .nan
  | .neginf, .inf => .nan
  | .neginf, .neginf => .nan
  | .fin _, .inf => .fin 0
  | .fin _, .neginf => .fin 0
  | .inf, .fin b => if 0 ≤ b then .inf else .neginf
  | .neginf, .fin b => if 0 ≤ b then .neginf else .inf
  | .fin a, .fin b =>
    if b = 0 then (if a = 0 then .nan else if 0 < a then .inf else .neginf)
    else .fin (a / b)

/-- The renderer's normalization `(count_array.astype(float) / n_reads) * 1e9
/ n_tss`, element by element, on the IEEE value classes. -/
def normalizeArr (counts : List ℕ) (n_reads n_tss : ℕ) : List PyFloat :=
  counts.map (fun cnt : ℕ =>
    pydiv (pymul (pydiv (.fin (cnt : ℚ)) (.fin (n_reads : ℚ))) (.fin 1000000000))
      (.fin (n_tss : ℚ)))

/-- Source `pos = range(-up, down + 1)`. -/
def posList (up down : ℕ) : List Int :=
  (List.range (up + down + 1)).map (fun i : ℕ => (i : Int) - (up : Int))

/-- One output line `position|raw_value|smoothed_value|channel_label` of the
renderer, modelled as its four fields. -/
structure OutLine where
  pos : Int
  raw : PyFloat
  smooth : PyFloat
  label : String
deriving DecidableEq, Repr

/-- Python's `zip` of the three printed columns, truncating to the shortest:
one `OutLine` per zipped triple. -/
def zipLines (label : String) : List Int → List PyFloat → List PyFloat → List OutLine
  | p :: ps, a :: vs, s :: ss => ⟨p, a, s, label⟩ :: zipLines label ps vs ss
  | _, _, _ => []

/-- One printed block of `output`: `zip(pos[extra:extra+n],
arr[extra:extra+n], smooth[extra:extra+n])` rendered with the given channel
label. -/
def blockLines (label : String) (pos : List Int) (arr arrS : List PyFloat)
    (extra n : ℕ) : List OutLine :=
  zipLines label ((pos.drop extra).take n) ((arr.drop extra).take n) ((arrS.drop extra).take n)

/-- The `combined` array of `output`: zeros of the full array length with
`combined[cs:cs+n] += left[left_start:left_start+n]` and
`+= right[right_start:right_start+n]`, where `cs = extra + 1`,
`left_start = extra - frag_size // 2 + 1` and
`right_start = extra + frag_size // 2 + 1` (natural-number arithmetic; the
source's indices are nonnegative whenever `frag_size / 2 ≤ extra + 1`, which
holds for every estimator-produced fragment size). -/
def combinedArr (leftArr rightArr : List PyFloat) (extra n fs : ℕ) : List PyFloat :=
  let fs2 := fs / 2
  let cs := extra + 1
  let ls := extra - fs2 + 1
  let rs := extra + fs2 + 1
  (List.range leftArr.length).map (fun j =>
    if cs ≤ j ∧ j < cs + n then
      pyadd (leftArr.getD (ls + (j - cs)) (.fin 0)) (rightArr.getD (rs + (j - cs)) (.fin 0))
    else .fin 0)

/-- Source `output(density, up, down, extra, frag_size, n_tss, n_reads)`:
normalize each count array, smooth it with the external filter `sf`
(Savitzky-Golay in the source, out of scope here and passed as a parameter),
build the combined array, and emit the three blocks in the order left, right,
combined, each trimmed to `[extra : extra + n]` with
`n = len(left) - 2*extra - 1`. -/
def outputLines (sf : List PyFloat → List PyFloat) (left_counts right_counts : List ℕ)
    (up down extra fs n_tss n_reads : ℕ) : List OutLine :=
  let pos := posList up down
  let n := left_counts.length - (2 * extra + 1)
  let leftArr := normalizeArr left_counts n_reads n_tss
  let rightArr := normalizeArr right_counts n_reads n_tss
  let comb := combinedArr leftArr rightArr extra n fs
  blockLines "left" pos leftArr (sf leftArr) extra n ++
    blockLines "right" pos rightArr (sf rightArr) extra n ++
      blockLines "combined" pos comb (sf comb) extra n

theorem foldl_min_mem {α : Type} [LinearOrderedCommRing α] :
    ∀ (l : List α) (a : α), l.foldl min a ∈ a :: l
  | [], _ => by simp
  | b :: t, a => by
    rw [List.foldl_cons]
    have h := foldl_min_mem t (min a b)
    rcases List.mem_cons.mp h with h2 | h2
    · rcases min_choice a b with h1 | h1 <;> rw [h2, h1] <;> simp
    · simp [h2]

theorem foldl_min_le {α : Type} [LinearOrderedCommRing α] :
    ∀ (l : List α) (a b : α), b ∈ a :: l → l.foldl min a ≤ b := by
  intro l
  induction l with
  | nil =>
    intro a b h
    simp at h
    simp [h]
  | cons c t ih =>
    intro a b h
    rw [List.foldl_cons]
    rcases List.mem_cons.mp h with h1 | h1
    · refine le_trans (ih (min a c) (min a c) (List.mem_cons_self _ _)) ?_
      rw [h1]
      exact min_le_left a c
    · rcases List.mem_cons.mp h1 with h2 | h2
      · refine le_trans (ih (min a c) (min a c) (List.mem_cons_self _ _)) ?_
        rw [h2]
        exact min_le_right a c
      · exact ih (min a c) b (List.mem_cons_of_mem _ h2)

theorem pyMin_mem {α : Type} [LinearOrderedCommRing α] {l : List α} (h : l ≠ []) :
    pyMin l ∈ l := by
  cases l with
  | nil => exact absurd rfl h
  | cons a t => exact foldl_min_mem t a

theorem pyMin_le {α : Type} [LinearOrderedCommRing α] {l : List α} {b : α} (h : b ∈ l) :
    pyMin l ≤ b := by
  cases l with
  | nil => simp at h
  | cons a t => exact foldl_min_le t a b h

theorem filter_range_head {p : ℕ → Bool} :
    ∀ {n s : ℕ}, ((List.range n).filter p).head? = some s →
      p s = true ∧ s < n ∧ ∀ t, t < s → p t = false := by
  intro n
  induction n with
  | zero =>
    intro s h
    simp [List.range_zero] at h
  | succ n ih =>
    intro s h
    rw [List.range_succ, List.filter_append] at h
    cases hf : (List.range n).filter p with
    | nil =>
      rw [hf, List.nil_append] at h
      have hall := List.filter_eq_nil_iff.mp hf
      by_cases hp : p n = true
      · rw [List.filter_cons, if_pos hp] at h
        simp at h
        subst h
        refine ⟨hp, Nat.lt_succ_self n, ?_⟩
        intro t ht
        have := hall t (List.mem_range.mpr ht)
        revert this
        cases p t <;> simp
      · rw [List.filter_cons, if_neg hp] at h
        simp at h
    | cons hd tl =>
      rw [hf, List.cons_append] at h
      simp at h
      obtain ⟨hph, hlt, hpt⟩ := ih (hf ▸ rfl : ((List.range n).filter p).head? = some hd)
      subst h
      exact ⟨hph, Nat.lt_succ_of_lt hlt, hpt⟩

theorem filter_range_ne_nil {p : ℕ → Bool} {n t : ℕ} (ht : t < n) (hp : p t = true) :
    (List.range n).filter p ≠ [] := by
  intro h
  exact List.filter_eq_nil_iff.mp h t (List.mem_range.mpr ht) hp

theorem optimal_shift_eq_map {α : Type} [LinearOrderedCommRing α] (x y : List α) (extra : ℕ) :
    optimal_shift x y extra =
      ((List.range (extra + 1)).filter
        (fun i => decide (peak_dist_at x y extra i = pyMin (peak_dists x y extra)))).map
        (fun i => (i, peak_dist_at x y extra i)) := by
  unfold optimal_shift
  rw [List.filter_map]
  rfl

theorem peak_dists_ne_nil {α : Type} [LinearOrderedCommRing α] (x y : List α) (extra : ℕ) :
    peak_dists x y extra ≠ [] := by
  simp [peak_dists, List.range_succ]

theorem optimal_shift_ne_nil {α : Type} [LinearOrderedCommRing α] (x y : List α) (extra : ℕ) :
    optimal_shift x y extra ≠ [] := by
  rw [optimal_shift_eq_map]
  intro h
  have hnil := List.map_eq_nil_iff.mp h
  have hm := pyMin_mem (peak_dists_ne_nil x y extra)
  obtain ⟨i, hi, hfi⟩ :=
    List.mem_map.mp (show pyMin (peak_dists x y extra) ∈
      (List.range (extra + 1)).map (peak_dist_at x y extra) from hm)
  exact filter_range_ne_nil (List.mem_range.mp hi)
    (decide_eq_true (show peak_dist_at x y extra i = pyMin (peak_dists x y extra) from hfi)) hnil

theorem optimal_shift_head {α : Type} [LinearOrderedCommRing α] {x y : List α} {extra : ℕ}
    {s : ℕ} {d : α} (h : (optimal_shift x y extra).head? = some (s, d)) :
    s ≤ extra ∧ peak_dist_at x y extra s = d ∧ d = pyMin (peak_dists x y extra) ∧
      ∀ t, t < s → peak_dist_at x y extra t ≠ pyMin (peak_dists x y extra) := by
  rw [optimal_shift_eq_map, List.head?_map] at h
  obtain ⟨i, hi, hgi⟩ := Option.map_eq_some'.mp h
  obtain ⟨hpi, hlt, hfail⟩ := filter_range_head hi
  have hs : i = s := congrArg Prod.fst hgi
  subst hs
  have hd : peak_dist_at x y extra i = d := congrArg Prod.snd hgi
  refine ⟨Nat.lt_succ_iff.mp hlt, hd, ?_, ?_⟩
  · rw [← hd]
    exact of_decide_eq_true hpi
  · intro t ht hc
    have := hfail t ht
    rw [decide_eq_false_iff_not] at this
    exact this hc

theorem optimal_shift_mem {α : Type} [LinearOrderedCommRing α] {x y : List α} {extra : ℕ}
    {sd : ℕ × α} :
    sd ∈ optimal_shift x y extra ↔
      sd.1 ≤ extra ∧ peak_dist_at x y extra sd.1 = sd.2 ∧
        sd.2 = pyMin (peak_dists x y extra) := by
  rw [optimal_shift_eq_map]
  constructor
  · intro h
    obtain ⟨i, hi, hgi⟩ := List.mem_map.mp h
    obtain ⟨hr, hp⟩ := List.mem_filter.mp hi
    have h1 : i = sd.1 := congrArg Prod.fst hgi
    have h2 : peak_dist_at x y extra i = sd.2 := congrArg Prod.snd hgi
    subst h1
    refine ⟨Nat.lt_succ_iff.mp (List.mem_range.mp hr), h2, ?_⟩
    rw [← h2]
    exact of_decide_eq_true hp
  · rintro ⟨h1, h2, h3⟩
    apply List.mem_map.mpr
    refine ⟨sd.1, List.mem_filter.mpr ⟨List.mem_range.mpr (Nat.lt_succ_of_le h1), ?_⟩, ?_⟩
    · rw [h2, h3]
      simp
    · rw [h2]

theorem headD_eq_head? {β : Type} {l : List β} {dflt a : β} (h : l.head? = some a) :
    l.headD dflt = a := by
  cases l with
  | nil => simp at h
  | cons b t =>
    simp at h
    simp [h]

theorem dist_sq_cons {α : Type} [LinearOrderedCommRing α] (a b : α) (t u : List α) :
    dist_sq (a :: t) (b :: u) = (a - b) ^ 2 + dist_sq t u := by
  simp [dist_sq]

theorem dist_sq_smul {α : Type} [LinearOrderedCommRing α] (c : α) :
    ∀ (x y : List α), dist_sq (x.map (c * ·)) (y.map (c * ·)) = c ^ 2 * dist_sq x y
  | [], y => by simp [dist_sq]
  | a :: t, [] => by simp [dist_sq]
  | a :: t, b :: u => by
    rw [List.map_cons, List.map_cons, dist_sq_cons, dist_sq_cons, dist_sq_smul c t u]
    ring

theorem peak_dist_at_smul {α : Type} [LinearOrderedCommRing α] (c : α) (x y : List α)
    (extra i : ℕ) :
    peak_dist_at (x.map (c * ·)) (y.map (c * ·)) extra i = c ^ 2 * peak_dist_at x y extra i := by
  simp only [peak_dist_at, List.length_map]
  rw [← List.map_drop, ← List.map_take, ← List.map_drop, ← List.map_take, dist_sq_smul]

theorem foldl_min_map_smul {α : Type} [LinearOrderedCommRing α] {c : α} (hc : 0 ≤ c) :
    ∀ (l : List α) (a : α), (l.map (c * ·)).foldl min (c * a) = c * l.foldl min a
  | [], _ => by simp
  | b :: t, a => by
    rw [List.map_cons, List.foldl_cons, List.foldl_cons, ← mul_min_of_nonneg _ _ hc,
      foldl_min_map_smul hc t (min a b)]

theorem pyMin_map_smul {α : Type} [LinearOrderedCommRing α] {c : α} (hc : 0 ≤ c)
    (l : List α) : pyMin (l.map (c * ·)) = c * pyMin l := by
  cases l with
  | nil => simp [pyMin]
  | cons a t => exact foldl_min_map_smul hc t a

theorem peak_dists_smul {α : Type} [LinearOrderedCommRing α] (c : α) (x y : List α)
    (extra : ℕ) :
    peak_dists (x.map (c * ·)) (y.map (c * ·)) extra =
      (peak_dists x y extra).map (c ^ 2 * ·) := by
  unfold peak_dists
  rw [List.map_map]
  exact List.map_congr_left (fun i _ => peak_dist_at_smul c x y extra i)

theorem optimal_shift_smul_filter {α : Type} [LinearOrderedCommRing α] {c : α} (hc : 0 < c)
    (x y : List α) (extra : ℕ) :
    (List.range (extra + 1)).filter
        (fun i => decide (peak_dist_at (x.map (c * ·)) (y.map (c * ·)) extra i =
          pyMin (peak_dists (x.map (c * ·)) (y.map (c * ·)) extra))) =
      (List.range (extra + 1)).filter
        (fun i => decide (peak_dist_at x y extra i = pyMin (peak_dists x y extra))) := by
  apply List.filter_congr
  intro i _
  rw [peak_dist_at_smul, peak_dists_smul, pyMin_map_smul (by positivity)]
  apply decide_eq_decide.mpr
  constructor
  · intro h
    exact mul_left_cancel₀ (pow_ne_zero 2 (ne_of_gt hc)) h
  · intro h
    rw [h]

theorem determine_frag_size_eq_filter {α : Type} [LinearOrderedCommRing α] (x y : List α)
    (extra : ℕ) :
    determine_frag_size x y extra =
      ((List.range (extra + 1)).filter
        (fun i => decide (peak_dist_at x y extra i = pyMin (peak_dists x y extra)))).headD 0
        * 2 := by
  rw [determine_frag_size, optimal_shift_eq_map]
  cases h : (List.range (extra + 1)).filter
      (fun i => decide (peak_dist_at x y extra i = pyMin (peak_dists x y extra))) with
  | nil => simp
  | cons a t => simp

theorem optimal_shift_fst_eq_filter {α : Type} [LinearOrderedCommRing α] (x y : List α)
    (extra : ℕ) :
    (optimal_shift x y extra).map Prod.fst =
      (List.range (extra + 1)).filter
        (fun i => decide (peak_dist_at x y extra i = pyMin (peak_dists x y extra))) := by
  rw [optimal_shift_eq_map, List.map_map]
  exact List.map_id _

theorem zipLines_length (label : String) :
    ∀ (ps : List Int) (vs ss : List PyFloat),
      (zipLines label ps vs ss).length = min ps.length (min vs.length ss.length)
  | p :: ps, a :: vs, s :: ss => by
    simp only [zipLines, List.length_cons, zipLines_length label ps vs ss]
    omega
  | [], vs, ss => by simp [zipLines]
  | p :: ps, [], ss => by simp [zipLines]
  | p :: ps, a :: vs, [] => by simp [zipLines]

theorem zipLines_getElem? (label : String) :
    ∀ (ps : List Int) (vs ss : List PyFloat) (i : ℕ),
      i < ps.length → i < vs.length → i < ss.length →
      (zipLines label ps vs ss)[i]? =
        some ⟨ps.getD i 0, vs.getD i .nan, ss.getD i .nan, label⟩
  | p :: ps, a :: vs, s :: ss, 0, _, _, _ => by simp [zipLines]
  | p :: ps, a :: vs, s :: ss, i + 1, h1, h2, h3 => by
    simp only [zipLines, List.getElem?_cons_succ, List.getD_cons_succ]
    exact zipLines_getElem? label ps vs ss i (by simpa using h1) (by simpa using h2)
      (by simpa using h3)
  | [], _, _, _, h1, _, _ => absurd h1 (by simp)
  | p :: ps, [], _, _, _, h2, _ => absurd h2 (by simp)
  | p :: ps, a :: vs, [], _, _, _, h3 => absurd h3 (by simp)

theorem slice_getElem? {β : Type} (l : List β) (b n i : ℕ) (h : i < n) :
    ((l.drop b).take n)[i]? = l[b + i]? := by
  rw [List.getElem?_take_of_lt h, List.getElem?_drop]

theorem slice_getD {β : Type} (l : List β) (b n i : ℕ) (d : β) (h : i < n) :
    ((l.drop b).take n).getD i d = l.getD (b + i) d := by
  rw [List.getD_eq_getElem?_getD, List.getD_eq_getElem?_getD, slice_getElem? l b n i h]

theorem posList_length (up down : ℕ) : (posList up down).length = up + down + 1 := by
  rw [posList, List.length_map, List.length_range]

theorem posList_getD {up down j : ℕ} (h : j < up + down + 1) :
    (posList up down).getD j 0 = (j : ℤ) - up := by
  rw [List.getD_eq_getElem?_getD, posList, List.getElem?_map, List.getElem?_range h]
  rfl

theorem normalizeArr_length (counts : List ℕ) (r t : ℕ) :
    (normalizeArr counts r t).length = counts.length := by
  simp [normalizeArr]

theorem combinedArr_length (leftArr rightArr : List PyFloat) (extra n fs : ℕ) :
    (combinedArr leftArr rightArr extra n fs).length = leftArr.length := by
  simp [combinedArr]

theorem blockLines_length {label : String} {pos : List Int} {arr arrS : List PyFloat}
    {extra n : ℕ} (h1 : extra + n ≤ pos.length) (h2 : extra + n ≤ arr.length)
    (h3 : extra + n ≤ arrS.length) :
    (blockLines label pos arr arrS extra n).length = n := by
  rw [blockLines, zipLines_length]
  simp only [List.length_take, List.length_drop]
  omega

theorem blockLines_getElem? {label : String} {pos : List Int} {arr arrS : List PyFloat}
    {extra n i : ℕ} (hi : i < n) (h1 : extra + n ≤ pos.length) (h2 : extra + n ≤ arr.length)
    (h3 : extra + n ≤ arrS.length) :
    (blockLines label pos arr arrS extra n)[i]? =
      some ⟨pos.getD (extra + i) 0, arr.getD (extra + i) .nan,
        arrS.getD (extra + i) .nan, label⟩ := by
  rw [blockLines, zipLines_getElem? label _ _ _ i ?_ ?_ ?_]
  · rw [slice_getD _ _ _ _ _ hi, slice_getD _ _ _ _ _ hi, slice_getD _ _ _ _ _ hi]
  · simp only [List.length_take, List.length_drop]
    omega
  · simp only [List.length_take, List.length_drop]
    omega
  · simp only [List.length_take, List.length_drop]
    omega

theorem foldlM_step_error {ε σ β : Type} (f : σ → β → Except ε σ) (pre : List β) (r : β)
    (post : List β) (init st : σ) (e : ε) (hpre : pre.foldlM f init = .ok st)
    (hr : f st r = .error e) : (pre ++ r :: post).foldlM f init = .error e := by
  rw [List.foldlM_append, hpre]
  show (r :: post).foldlM f st = .error e
  rw [List.foldlM_cons, hr]
  rfl

theorem tssStep_n_feat {u d : Int} {st st' : TssState} {f : Feature}
    (h : tssStep u d st f = .ok st') : st'.n_feat = st.n_feat + 1 := by
  unfold tssStep at h
  split at h
  · split at h
    · exact absurd h (by simp)
    · split at h
      · split at h
        · cases h; rfl
        · split at h
          · cases h; rfl
          · exact absurd h (by simp)
      · cases h; rfl
  · cases h; rfl

theorem foldlM_tssStep_n_feat {u d : Int} :
    ∀ (l : List Feature) (st st' : TssState),
      l.foldlM (tssStep u d) st = .ok st' → st'.n_feat = st.n_feat + l.length := by
  intro l
  induction l with
  | nil =>
    intro st st' hf
    simp only [List.foldlM_nil] at hf
    cases hf
    simp
  | cons a l ih =>
    intro st st' hf
    simp only [List.foldlM_cons] at hf
    cases hstep : tssStep u d st a with
    | error e =>
      rw [hstep] at hf
      cases hf
    | ok st1 =>
      rw [hstep] at hf
      have h1 := tssStep_n_feat hstep
      have h2 := ih st1 st' hf
      rw [h2, h1, List.length_cons]
      omega

theorem incAt_sum : ∀ (l : List ℕ) (i : ℕ), i < l.length → (incAt l i).sum = l.sum + 1
  | [], i, h => absurd h (by simp)
  | x :: xs, 0, _ => by
    simp only [incAt, List.sum_cons]
    omega
  | x :: xs, i + 1, h => by
    simp only [incAt, List.sum_cons, incAt_sum xs i (by simpa using h)]
    omega

theorem densityStep_sum {tsspos : IntervalIndex} {st st' : DensityState} {aln : Alignment}
    (h : densityStep tsspos st aln = .ok st') :
    st'.left.sum + st'.right.sum + st.n_reads_on_tss =
      st.left.sum + st.right.sum + st'.n_reads_on_tss := by
  unfold densityStep at h
  split at h
  · split at h
    · cases h; rfl
    · split at h
      · exact absurd h (by simp)
      · split at h
        · split at h
          · cases h
            simp only
            rw [incAt_sum _ _ (by assumption)]
            omega
          · exact absurd h (by simp)
        · split at h
          · cases h
            simp only
            rw [incAt_sum _ _ (by assumption)]
            omega
          · exact absurd h (by simp)
  · cases h; rfl

theorem foldlM_densityStep_sum {tsspos : IntervalIndex} :
    ∀ (l : List Alignment) (st st' : DensityState),
      l.foldlM (densityStep tsspos) st = .ok st' →
      st'.left.sum + st'.right.sum + st.n_reads_on_tss =
        st.left.sum + st.right.sum + st'.n_reads_on_tss := by
  intro l
  induction l with
  | nil =>
    intro st st' hf
    simp only [List.foldlM_nil] at hf
    cases hf
    rfl
  | cons a l ih =>
    intro st st' hf
    simp only [List.foldlM_cons] at hf
    cases hstep : densityStep tsspos st a with
    | error e =>
      rw [hstep] at hf
      cases hf
    | ok st1 =>
      rw [hstep] at hf
      have h1 := densityStep_sum hstep
      have h2 := ih st1 st' hf
      omega

theorem overlaps_comm (a b : GenomicInterval) : overlaps a b = overlaps b a := by
  simp only [overlaps, decide_eq_decide]
  tauto

theorem tryClaim_of_overlap {g : IntervalIndex} {iv : GenomicInterval}
    (h : overlaps_any g iv = true) : tryClaim g iv = (g, false) := by
  simp [tryClaim, h]

theorem tryClaim_pairwise {g : IntervalIndex} {iv : GenomicInterval}
    (hg : PairwiseDisjoint g) : PairwiseDisjoint (tryClaim g iv).1 := by
  unfold tryClaim
  by_cases h : overlaps_any g iv = true
  · simp [h, hg]
  · have h' : overlaps_any g iv = false := by
      revert h
      cases overlaps_any g iv <;> simp
    simp only [h', Bool.false_eq_true, if_false]
    refine List.Pairwise.cons ?_ hg
    intro w hw
    have hx := List.any_eq_false.mp (by simpa [overlaps_any] using h') w hw
    rw [overlaps_comm]
    revert hx
    cases overlaps w iv <;> simp

theorem tssStep_tsspos {u d : Int} {st st' : TssState} {f : Feature}
    (h : tssStep u d st f = .ok st') :
    st'.tsspos = st.tsspos ∨ ∃ w, st'.tsspos = (tryClaim st.tsspos w).1 := by
  unfold tssStep at h
  split at h
  · split at h
    · exact absurd h (by simp)
    · split at h
      · split at h
        · exact Or.inr ⟨_, by cases h; rfl⟩
        · split at h
          · exact Or.inr ⟨_, by cases h; rfl⟩
          · exact absurd h (by simp)
      · exact Or.inl (by cases h; rfl)
  · exact Or.inl (by cases h; rfl)

theorem foldlM_tssStep_pairwise {u d : Int} :
    ∀ (l : List Feature) (st st' : TssState),
      PairwiseDisjoint st.tsspos →
      l.foldlM (tssStep u d) st = .ok st' → PairwiseDisjoint st'.tsspos := by
  intro l
  induction l with
  | nil =>
    intro st st' h hf
    simp only [List.foldlM_nil] at hf
    cases hf
    exact h
  | cons a l ih =>
    intro st st' h hf
    simp only [List.foldlM_cons] at hf
    cases hstep : tssStep u d st a with
    | error e =>
      rw [hstep] at hf
      cases hf
    | ok st1 =>
      rw [hstep] at hf
      have h1 : PairwiseDisjoint st1.tsspos := by
        rcases tssStep_tsspos hstep with heq | ⟨w, heq⟩
        · rw [heq]; exact h
        · rw [heq]; exact tryClaim_pairwise h
      exact ih st1 st' h1 hf

/-- C4: a claim attempt whose interval overlaps a previously accepted window
returns false and leaves the index state unchanged (nothing added, removed or
modified), and consequently the windows retained by `gtf_to_tsspos` are
pairwise non-overlapping. -/
theorem C4_claim_overlap_rejected :
    (∀ (g : IntervalIndex) (iv : GenomicInterval),
      overlaps_any g iv = true → tryClaim g iv = (g, false)) ∧
    ∀ (gtf : List Feature) (u d : Int) (res : IntervalIndex × Nat),
      gtf_to_tsspos gtf u d = .ok res → PairwiseDisjoint res.1 := by
  constructor
  · intro g iv h
    exact tryClaim_of_overlap h
  · intro gtf u d res h
    rw [gtf_to_tsspos] at h
    cases hf : gtf.foldlM (tssStep u d) tssInit with
    | error e =>
      rw [hf] at h
      cases h
    | ok st =>
      rw [hf] at h
      have hres : (st.tsspos, st.n_used) = res := by
        simpa [Except.map] using h
      have hp := foldlM_tssStep_pairwise gtf tssInit st List.Pairwise.nil hf
      rw [← hres]
      exact hp

/-- Witness for C4: a concrete overlapping claim is rejected with the index
unchanged, and a concrete `gtf_to_tsspos` run yields a pairwise-disjoint
index. -/
theorem C4_claim_overlap_rejected_witness :
    tryClaim [⟨"c", 0, 10, "+"⟩] ⟨"c", 5, 15, "+"⟩ = ([⟨"c", 0, 10, "+"⟩], false) ∧
    PairwiseDisjoint [(⟨"chrom1", 995, 1006, "+"⟩ : GenomicInterval)] :=
  ⟨C4_claim_overlap_rejected.1 [⟨"c", 0, 10, "+"⟩] ⟨"c", 5, 15, "+"⟩ (by decide),
    C4_claim_overlap_rejected.2 [⟨"exon", [("exon_number", "1")], ⟨"chrom1", 1000, 1500, "+"⟩⟩]
      5 5 ([⟨"chrom1", 995, 1006, "+"⟩], 1) rfl⟩

/-- C9: a selected first-exon feature whose strand is neither `+` nor `-` is
fatal: the run aborts with an error reporting the 1-based index of the
offending feature, no window is claimed for it, and the features after it are
never processed (the result does not depend on `post`). -/
theorem C9_bad_strand_fatal (upstream downstream : Int) (pre : List Feature) (f : Feature)
    (post : List Feature) (st : TssState)
    (hpre : pre.foldlM (tssStep upstream downstream) tssInit = .ok st)
    (htype : f.type = "exon") (hnum : attrLookup f.attr "exon_number" = some "1")
    (hp : f.iv.strand ≠ "+") (hm : f.iv.strand ≠ "-") :
    gtf_to_tsspos (pre ++ f :: post) upstream downstream =
      .error (.badStrand (pre.length + 1) f.iv.strand) := by
  have hn : st.n_feat = pre.length := by
    have := foldlM_tssStep_n_feat pre tssInit st hpre
    simpa [tssInit] using this
  have hstep : tssStep upstream downstream st f =
      .error (.badStrand (pre.length + 1) f.iv.strand) := by
    rw [← hn]
    simp [tssStep, htype, hnum, hp, hm]
  rw [gtf_to_tsspos,
    foldlM_step_error (tssStep upstream downstream) pre f post tssInit st _ hpre hstep]
  rfl

/-- Witness for C9: a concrete stream whose second feature is a selected first
exon with strand `.` aborts with `badStrand` at index 2, with a trailing
feature left unprocessed. -/
theorem C9_bad_strand_fatal_witness :
    gtf_to_tsspos
      [⟨"exon", [("exon_number", "1")], ⟨"chrom1", 1000, 1500, "+"⟩⟩,
       ⟨"exon", [("exon_number", "1")], ⟨"chrom2", 2000, 2500, "."⟩⟩,
       ⟨"exon", [("exon_number", "1")], ⟨"chrom3", 3000, 3500, "+"⟩⟩] 5 5 =
      .error (.badStrand 2 ".") :=
  C9_bad_strand_fatal 5 5 [⟨"exon", [("exon_number", "1")], ⟨"chrom1", 1000, 1500, "+"⟩⟩]
    ⟨"exon", [("exon_number", "1")], ⟨"chrom2", 2000, 2500, "."⟩⟩
    [⟨"exon", [("exon_number", "1")], ⟨"chrom3", 3000, 3500, "+"⟩⟩]
    ⟨[⟨"chrom1", 995, 1006, "+"⟩], 1, 1, 1⟩ rfl rfl rfl (by decide) (by decide)

/-- C10: on equal-length arrays of length at least `2*extra + 1` the
fragment-size estimator (a total function of this embedding) has a nonempty
candidate list and returns `2*s` for some candidate shift `s ≤ extra`; in
particular the result is even and at most `2*extra`. -/
theorem C10_result_form {α : Type} [LinearOrderedCommRing α] (x y : List α) (extra : ℕ)
    (hlen : x.length = y.length) (hL : 2 * extra + 1 ≤ x.length) :
    optimal_shift x y extra ≠ [] ∧
      ∃ s, s ≤ extra ∧ determine_frag_size x y extra = 2 * s ∧
        determine_frag_size x y extra ≤ 2 * extra ∧ 2 ∣ determine_frag_size x y extra := by
  have hne := optimal_shift_ne_nil x y extra
  refine ⟨hne, ?_⟩
  obtain ⟨sd, hsd⟩ : ∃ sd, (optimal_shift x y extra).head? = some sd := by
    cases hos : optimal_shift x y extra with
    | nil => exact absurd hos hne
    | cons a t => exact ⟨a, by simp [hos]⟩
  obtain ⟨s, d⟩ := sd
  obtain ⟨hs_le, -, -, -⟩ := optimal_shift_head hsd
  have hval : determine_frag_size x y extra = 2 * s := by
    rw [determine_frag_size, headD_eq_head? hsd]
    exact Nat.mul_comm s 2
  exact ⟨s, hs_le, hval, by omega, by rw [hval]; exact Dvd.intro s rfl⟩

/-- Witness for C10 at concrete integer arrays of length 3 with margin 1. -/
theorem C10_result_form_witness :
    optimal_shift ([0, 1, 2] : List ℤ) [2, 1, 0] 1 ≠ [] ∧
      ∃ s, s ≤ 1 ∧ determine_frag_size ([0, 1, 2] : List ℤ) [2, 1, 0] 1 = 2 * s ∧
        determine_frag_size ([0, 1, 2] : List ℤ) [2, 1, 0] 1 ≤ 2 * 1 ∧
        2 ∣ determine_frag_size ([0, 1, 2] : List ℤ) [2, 1, 0] 1 :=
  C10_result_form [0, 1, 2] [2, 1, 0] 1 rfl (by decide)

/-- C5: when several shifts tie for the minimum distance, the warning carries
the whole `optimal_shift` list (exactly the tied (shift, distance) candidates),
and the returned fragment size is twice the smallest tied shift; the function
still returns normally. -/
theorem C5_tie_warning {α : Type} [LinearOrderedCommRing α] (x y : List α) (extra : ℕ)
    (htie : 1 < (optimal_shift x y extra).length) :
    frag_size_warning x y extra = some (optimal_shift x y extra) ∧
      (∀ sd : ℕ × α, sd ∈ optimal_shift x y extra ↔
        sd.1 ≤ extra ∧ peak_dist_at x y extra sd.1 = sd.2 ∧
          sd.2 = pyMin (peak_dists x y extra)) ∧
      ∃ s, determine_frag_size x y extra = 2 * s ∧
        s ∈ (optimal_shift x y extra).map Prod.fst ∧
        ∀ t ∈ (optimal_shift x y extra).map Prod.fst, s ≤ t := by
  refine ⟨by simp [frag_size_warning, htie], fun sd => optimal_shift_mem, ?_⟩
  have hne := optimal_shift_ne_nil x y extra
  obtain ⟨sd, hsd⟩ : ∃ sd, (optimal_shift x y extra).head? = some sd := by
    cases hos : optimal_shift x y extra with
    | nil => exact absurd hos hne
    | cons a t => exact ⟨a, by simp [hos]⟩
  obtain ⟨s, d⟩ := sd
  obtain ⟨hs_le, hps, hpm, hleast⟩ := optimal_shift_head hsd
  refine ⟨s, ?_, ?_, ?_⟩
  · rw [determine_frag_size, headD_eq_head? hsd]
    exact Nat.mul_comm s 2
  · exact List.mem_map.mpr ⟨(s, d), optimal_shift_mem.mpr ⟨hs_le, hps, hpm⟩, rfl⟩
  · intro t ht
    obtain ⟨⟨t', e⟩, hmem, hfst⟩ := List.mem_map.mp ht
    obtain ⟨-, hpt, hem⟩ := optimal_shift_mem.mp hmem
    by_contra hgt
    have hlt : t < s := Nat.lt_of_not_le hgt
    apply hleast t hlt
    have ht' : t' = t := hfst
    rw [← ht', hpt, hem]

/-- Witness for C5 on a concrete tie: two candidates tie at distance 0, the
warning lists both, and twice the smallest shift (0) is returned. -/
theorem C5_tie_warning_witness :
    frag_size_warning ([0, 0, 0, 0, 0] : List ℤ) [0, 0, 0, 0, 0] 1 = some [(0, 0), (1, 0)] ∧
    determine_frag_size ([0, 0, 0, 0, 0] : List ℤ) [0, 0, 0, 0, 0] 1 = 2 * 0 := by
  have h := C5_tie_warning ([0, 0, 0, 0, 0] : List ℤ) [0, 0, 0, 0, 0] 1 (by decide)
  refine ⟨?_, ?_⟩
  · rw [h.1]
    decide
  · obtain ⟨s, hs, hmem, hleast⟩ := h.2.2
    have hz : s ≤ 0 := hleast 0 (by decide)
    rw [hs]
    omega

/-- C7: the estimator's result is invariant under uniform positive scaling of
both input arrays, and so is the set (list) of tied candidate shifts. -/
theorem C7_scaling_invariant {α : Type} [LinearOrderedCommRing α] (x y : List α)
    (extra : ℕ) (c : α) (hc : 0 < c) :
    determine_frag_size (x.map (c * ·)) (y.map (c * ·)) extra =
        determine_frag_size x y extra ∧
      (optimal_shift (x.map (c * ·)) (y.map (c * ·)) extra).map Prod.fst =
        (optimal_shift x y extra).map Prod.fst := by
  have hf := optimal_shift_smul_filter hc x y extra
  constructor
  · rw [determine_frag_size_eq_filter, determine_frag_size_eq_filter, hf]
  · rw [optimal_shift_fst_eq_filter, optimal_shift_fst_eq_filter, hf]

/-- Witness for C7: scaling two concrete integer arrays by 3 changes neither
the returned fragment size nor the tied shift list. -/
theorem C7_scaling_invariant_witness :
    determine_frag_size (([0, 4, 0, 2, 0] : List ℤ).map (3 * ·)) ([0, 1, 0, 2, 0].map (3 * ·)) 1 =
        determine_frag_size ([0, 4, 0, 2, 0] : List ℤ) [0, 1, 0, 2, 0] 1 ∧
      (optimal_shift (([0, 4, 0, 2, 0] : List ℤ).map (3 * ·)) ([0, 1, 0, 2, 0].map (3 * ·)) 1).map
          Prod.fst =
        (optimal_shift ([0, 4, 0, 2, 0] : List ℤ) [0, 1, 0, 2, 0] 1).map Prod.fst :=
  C7_scaling_invariant [0, 4, 0, 2, 0] [0, 1, 0, 2, 0] 1 3 (by decide)

/-- C2 counterexample: the claim says an out-of-bounds bucket index is
recoverable (record dropped, run continues); on this concrete input — a
stored window longer than the count arrays and a read falling 10 positions
into it with arrays of length 3 — the accumulator aborts the whole run with
an error, leaving the following valid record unprocessed. -/
theorem C2_out_of_bounds_counterexample :
    make_density [⟨"c", 0, 20, "+"⟩]
      [⟨true, ⟨"c", 10, 30, "+"⟩⟩, ⟨true, ⟨"c", 1, 25, "+"⟩⟩] 1 1 =
      .error (.indexOutOfBounds 10 ⟨"c", 0, 20, "+"⟩ ⟨"c", 10, 30, "+"⟩) := rfl

/-- C2 (amended): an out-of-bounds bucket index during accumulation is fatal —
the error (with the offending index, window and read) is the result of the
whole run, the record is not counted, and no later record is processed (the
result does not depend on `post`). -/
theorem C2_out_of_bounds_fatal (tsspos : IntervalIndex) (pre : List Alignment)
    (r : Alignment) (post : List Alignment) (up down : ℕ) (st : DensityState)
    (tss : GenomicInterval) (loc : String)
    (hpre : pre.foldlM (densityStep tsspos) (densityInit up down) = .ok st)
    (hal : r.aligned = true)
    (hq : query tsspos r.iv.chrom r.iv.start_d = some tss)
    (hloc : locd tss.strand r.iv.strand = some loc)
    (hbl : st.left.length ≤ (r.iv.start_d - tss.start_d).natAbs)
    (hbr : st.right.length ≤ (r.iv.start_d - tss.start_d).natAbs) :
    make_density tsspos (pre ++ r :: post) up down =
      .error (.indexOutOfBounds (r.iv.start_d - tss.start_d).natAbs tss r.iv) := by
  have hstep : densityStep tsspos st r =
      .error (.indexOutOfBounds (r.iv.start_d - tss.start_d).natAbs tss r.iv) := by
    by_cases hl : loc = "left"
    · subst hl
      simp [densityStep, hal, hq, hloc, Nat.not_lt.mpr hbl]
    · simp [densityStep, hal, hq, hloc, hl, Nat.not_lt.mpr hbr]
  rw [make_density]
  exact foldlM_step_error (densityStep tsspos) pre r post (densityInit up down) st _ hpre hstep

/-- Witness for C2 (amended) at a concrete input: a read 25 positions into an
oversized window with arrays of length 5 aborts the run, with a valid record
pending after it. -/
theorem C2_out_of_bounds_fatal_witness :
    make_density [⟨"c", 100, 130, "+"⟩]
      [⟨true, ⟨"c", 125, 150, "+"⟩⟩, ⟨true, ⟨"c", 101, 120, "+"⟩⟩] 2 2 =
      .error (.indexOutOfBounds 25 ⟨"c", 100, 130, "+"⟩ ⟨"c", 125, 150, "+"⟩) :=
  C2_out_of_bounds_fatal [⟨"c", 100, 130, "+"⟩] [] ⟨true, ⟨"c", 125, 150, "+"⟩⟩
    [⟨true, ⟨"c", 101, 120, "+"⟩⟩] 2 2 (densityInit 2 2) ⟨"c", 100, 130, "+"⟩ "left"
    rfl rfl (by decide) (by decide) (by decide) (by decide)

/-- C1 counterexample: in Scenario A (one `+` TSS anchored at 1000 with
upstream = downstream = 5, margin 0, reads at anchor offsets −3(+), −3(+),
+2(−)) the accumulator puts the two plus reads in `left[2]` and the minus
read in `right[7]` — the bucket is the distance to the window's 5′ start, not
to the anchor — so the claimed `left[3] == 2` and `right[2] == 1` fail:
`left[3]` and `right[2]` are 0. -/
theorem C1_scenarioA_counterexample :
    make_density [⟨"chrom1", 995, 1006, "+"⟩]
      [⟨true, ⟨"chrom1", 997, 1030, "+"⟩⟩, ⟨true, ⟨"chrom1", 997, 1030, "+"⟩⟩,
        ⟨true, ⟨"chrom1", 970, 1003, "-"⟩⟩] 5 5 =
      .ok ⟨[0, 0, 2, 0, 0, 0, 0, 0, 0, 0, 0], [0, 0, 0, 0, 0, 0, 0, 1, 0, 0, 0], 3, 3⟩ ∧
    ([0, 0, 2, 0, 0, 0, 0, 0, 0, 0, 0] : List ℕ).getD 3 0 = 0 ∧
    ([0, 0, 0, 0, 0, 0, 0, 1, 0, 0, 0] : List ℕ).getD 2 0 = 0 :=
  ⟨rfl, rfl, rfl⟩

/-- C1 (amended): every matched mapped record increments exactly one bucket
(the bucket sums equal `n_reads_on_tss`), the array is chosen by the fixed
table (+,+)→left, (+,−)→right, (−,+)→right, (−,−)→left, and the offset is
`|record.position − window.start_d|` — the distance to the window's 5′-most
(upstream-edge) coordinate, not to the anchor — so Scenario A yields
`left[2] == 2`, `right[7] == 1`, all other buckets 0, `n_reads == 3`,
`n_tss_used == 1`. -/
theorem C1_accumulator_amended :
    (∀ (tsspos : IntervalIndex) (bam : List Alignment) (up down : ℕ) (st : DensityState),
      make_density tsspos bam up down = .ok st →
        st.left.sum + st.right.sum = st.n_reads_on_tss) ∧
    locd "+" "+" = some "left" ∧ locd "+" "-" = some "right" ∧
    locd "-" "+" = some "right" ∧ locd "-" "-" = some "left" ∧
    gtf_to_tsspos [⟨"exon", [("exon_number", "1")], ⟨"chrom1", 1000, 1500, "+"⟩⟩] 5 5 =
      .ok ([⟨"chrom1", 995, 1006, "+"⟩], 1) ∧
    make_density [⟨"chrom1", 995, 1006, "+"⟩]
      [⟨true, ⟨"chrom1", 997, 1030, "+"⟩⟩, ⟨true, ⟨"chrom1", 997, 1030, "+"⟩⟩,
        ⟨true, ⟨"chrom1", 970, 1003, "-"⟩⟩] 5 5 =
      .ok ⟨[0, 0, 2, 0, 0, 0, 0, 0, 0, 0, 0], [0, 0, 0, 0, 0, 0, 0, 1, 0, 0, 0], 3, 3⟩ := by
  refine ⟨?_, rfl, rfl, rfl, rfl, rfl, rfl⟩
  intro tsspos bam up down st h
  have hs := foldlM_densityStep_sum bam (densityInit up down) st h
  simpa [densityInit] using hs

/-- Witness for C1 (amended): the single-bucket-per-matched-read invariant
evaluated on the Scenario A run — the bucket sums 2 + 1 equal the 3 matched
reads. -/
theorem C1_accumulator_amended_witness :
    ([0, 0, 2, 0, 0, 0, 0, 0, 0, 0, 0] : List ℕ).sum +
      ([0, 0, 0, 0, 0, 0, 0, 1, 0, 0, 0] : List ℕ).sum = 3 :=
  C1_accumulator_amended.1 [⟨"chrom1", 995, 1006, "+"⟩]
    [⟨true, ⟨"chrom1", 997, 1030, "+"⟩⟩, ⟨true, ⟨"chrom1", 997, 1030, "+"⟩⟩,
      ⟨true, ⟨"chrom1", 970, 1003, "-"⟩⟩] 5 5
    ⟨[0, 0, 2, 0, 0, 0, 0, 0, 0, 0, 0], [0, 0, 0, 0, 0, 0, 0, 1, 0, 0, 0], 3, 3⟩ rfl

/-- C3 counterexample: on `x = [0,2,0,0]`, `y = [0,0,0,1]` with margin 1 the
source's distances `[0, 1]` (slices start at `E−s+1` with length `L−2E−1`)
differ from the spec's formula's distances `[4, 1]` (slices start at `E−s`
with length `L−2E`), and the returned fragment size is 0 while the spec's
formula yields 2. -/
theorem C3_slice_counterexample :
    determine_frag_size ([0, 2, 0, 0] : List ℤ) [0, 0, 0, 1] 1 = 0 ∧
    specFragSize ([0, 2, 0, 0] : List ℤ) [0, 0, 0, 1] 1 = 2 ∧
    peak_dists ([0, 2, 0, 0] : List ℤ) [0, 0, 0, 1] 1 ≠
      specPeakDists ([0, 2, 0, 0] : List ℤ) [0, 0, 0, 1] 1 :=
  ⟨by decide, by decide, by decide⟩

/-- C3 (amended): for equal-length arrays with `L ≥ 2E+1` the search computes,
for every `s` in `0..E`, the distance between `left[E−s+1 : E−s+1+n]` and
`right[E+s+1 : E+s+1+n]` with `n = L − 2E − 1` (each slice of length exactly
`n`, one position later and one shorter than the spec's `E−s`/`N = L−2E`
slices), evaluates all `E+1` candidates exhaustively, and returns `2·s*` for
the smallest argmin `s*`. -/
theorem C3_frag_search_amended {α : Type} [LinearOrderedCommRing α] (x y : List α)
    (extra : ℕ) (hlen : x.length = y.length) (hL : 2 * extra + 1 ≤ x.length) :
    (peak_dists x y extra).length = extra + 1 ∧
    (∀ s, s ≤ extra →
      (peak_dists x y extra)[s]? =
        some (dist_sq ((x.drop (extra - s + 1)).take (x.length - (2 * extra + 1)))
          ((y.drop (extra + s + 1)).take (x.length - (2 * extra + 1)))) ∧
      ((x.drop (extra - s + 1)).take (x.length - (2 * extra + 1))).length =
        x.length - (2 * extra + 1) ∧
      ((y.drop (extra + s + 1)).take (x.length - (2 * extra + 1))).length =
        x.length - (2 * extra + 1)) ∧
    ∃ s, s ≤ extra ∧ determine_frag_size x y extra = 2 * s ∧
      peak_dist_at x y extra s = pyMin (peak_dists x y extra) ∧
      (∀ t, t ≤ extra → pyMin (peak_dists x y extra) ≤ peak_dist_at x y extra t) ∧
      ∀ t, t < s → peak_dist_at x y extra t ≠ pyMin (peak_dists x y extra) := by
  refine ⟨by simp [peak_dists], ?_, ?_⟩
  · intro s hs
    refine ⟨?_, ?_, ?_⟩
    · rw [peak_dists, List.getElem?_map, List.getElem?_range (Nat.lt_succ_of_le hs)]
      rfl
    · simp only [List.length_take, List.length_drop]
      omega
    · simp only [List.length_take, List.length_drop]
      omega
  · have hne := optimal_shift_ne_nil x y extra
    obtain ⟨sd, hsd⟩ : ∃ sd, (optimal_shift x y extra).head? = some sd := by
      cases hos : optimal_shift x y extra with
      | nil => exact absurd hos hne
      | cons a u => exact ⟨a, by simp [hos]⟩
    obtain ⟨s, d⟩ := sd
    obtain ⟨hs_le, hps, hpm, hleast⟩ := optimal_shift_head hsd
    refine ⟨s, hs_le, ?_, ?_, ?_, hleast⟩
    · rw [determine_frag_size, headD_eq_head? hsd]
      exact Nat.mul_comm s 2
    · rw [hps, hpm]
    · intro u hu
      exact pyMin_le (List.mem_map.mpr ⟨u, List.mem_range.mpr (Nat.lt_succ_of_le hu), rfl⟩)

/-- Witness for C3 (amended) at concrete integer arrays (length 5, margin 1):
there are two candidates and the shift-0 distance is the one of the slices
`x[2:4]` and `y[2:4]`. -/
theorem C3_frag_search_amended_witness :
    (peak_dists ([5, 4, 3, 2, 1] : List ℤ) [1, 2, 3, 4, 5] 1).length = 1 + 1 ∧
    (peak_dists ([5, 4, 3, 2, 1] : List ℤ) [1, 2, 3, 4, 5] 1)[0]? =
      some (dist_sq ((([5, 4, 3, 2, 1] : List ℤ).drop 2).take 2)
        ((([1, 2, 3, 4, 5] : List ℤ).drop 2).take 2)) :=
  ⟨(C3_frag_search_amended [5, 4, 3, 2, 1] [1, 2, 3, 4, 5] 1 rfl (by decide)).1,
    ((C3_frag_search_amended [5, 4, 3, 2, 1] [1, 2, 3, 4, 5] 1 rfl (by decide)).2.1 0
      (by decide)).1⟩

/-- C6: evidence for the code bug — with `n_reads = 0` and `n_tss_used = 0`
(an all-zero-count run) the renderer raises no error: normalization computes
`(0/0)*1e9/0`, which is NaN under the IEEE semantics numpy applies (with only
a runtime warning), and the renderer still emits its lines, NaN values
included, contradicting the requirement that an explicit error be raised and
that no output be produced from an undefined division. -/
theorem C6_zero_reads_emits_nan :
    normalizeArr (List.replicate 3 0) 0 0 = List.replicate 3 .nan ∧
    outputLines id (List.replicate 3 0) (List.replicate 3 0) 1 1 0 0 0 0 =
      [⟨-1, .nan, .nan, "left"⟩, ⟨0, .nan, .nan, "left"⟩,
       ⟨-1, .nan, .nan, "right"⟩, ⟨0, .nan, .nan, "right"⟩,
       ⟨-1, .fin 0, .fin 0, "combined"⟩, ⟨0, .nan, .nan, "combined"⟩] :=
  ⟨by decide, by decide⟩

/-- C8 counterexample: with core upstream = downstream = 1 and margin 1
(`up = down = 2`, `extra = 1`, so the claim expects three lines per block at
positions −1, 0, 1), each block has only two lines and no line has position
`+downstream = 1`: the source emits `n = L − 2·extra − 1` lines per block,
one fewer than the core window length, dropping the last downstream
position. -/
theorem C8_missing_last_position :
    (outputLines id (List.replicate 5 0) (List.replicate 5 0) 2 2 1 0 1 1).length = 6 ∧
    ((outputLines id (List.replicate 5 0) (List.replicate 5 0) 2 2 1 0 1 1).filter
      (fun l => decide (l.label = "left"))).length = 2 ∧
    ((outputLines id (List.replicate 5 0) (List.replicate 5 0) 2 2 1 0 1 1).filter
      (fun l => decide (l.pos = 1))).length = 0 :=
  ⟨by decide, by decide, by decide⟩

/-- C8 (amended): the renderer emits exactly three blocks in the order left,
right, combined, each of `n = (up+down+1) − (2·extra+1)` lines — i.e. one line
per core position from `−(up−extra)` to `(down−extra)−1`, the core window
minus its last downstream position — and the `i`-th line of each block is
`position = extra+i−up`, the raw value at array index `extra+i`, the smoothed
value at the same index, and the block's channel label. -/
theorem C8_output_blocks_amended (sf : List PyFloat → List PyFloat)
    (lc rc : List ℕ) (up down extra fs t r : ℕ)
    (hsf : ∀ l, (sf l).length = l.length)
    (hl : lc.length = up + down + 1) (hr : rc.length = up + down + 1)
    (hE : 2 * extra + 1 ≤ up + down + 1) :
    (outputLines sf lc rc up down extra fs t r).length =
        3 * ((up + down + 1) - (2 * extra + 1)) ∧
    (∀ i, i < (up + down + 1) - (2 * extra + 1) →
      (outputLines sf lc rc up down extra fs t r)[i]? =
        some ⟨((extra + i : ℕ) : ℤ) - (up : ℤ),
          (normalizeArr lc r t).getD (extra + i) .nan,
          (sf (normalizeArr lc r t)).getD (extra + i) .nan, "left"⟩) ∧
    (∀ i, i < (up + down + 1) - (2 * extra + 1) →
      (outputLines sf lc rc up down extra fs t r)[((up + down + 1) - (2 * extra + 1)) + i]? =
        some ⟨((extra + i : ℕ) : ℤ) - (up : ℤ),
          (normalizeArr rc r t).getD (extra + i) .nan,
          (sf (normalizeArr rc r t)).getD (extra + i) .nan, "right"⟩) ∧
    (∀ i, i < (up + down + 1) - (2 * extra + 1) →
      (outputLines sf lc rc up down extra fs t
          r)[2 * ((up + down + 1) - (2 * extra + 1)) + i]? =
        some ⟨((extra + i : ℕ) : ℤ) - (up : ℤ),
          (combinedArr (normalizeArr lc r t) (normalizeArr rc r t) extra
            ((up + down + 1) - (2 * extra + 1)) fs).getD (extra + i) .nan,
          (sf (combinedArr (normalizeArr lc r t) (normalizeArr rc r t) extra
            ((up + down + 1) - (2 * extra + 1)) fs)).getD (extra + i) .nan, "combined"⟩) := by
  set N := (up + down + 1) - (2 * extra + 1) with hN
  have hn : lc.length - (2 * extra + 1) = N := by rw [hl]
  have hout : outputLines sf lc rc up down extra fs t r =
      blockLines "left" (posList up down) (normalizeArr lc r t) (sf (normalizeArr lc r t))
          extra (lc.length - (2 * extra + 1)) ++
        blockLines "right" (posList up down) (normalizeArr rc r t) (sf (normalizeArr rc r t))
          extra (lc.length - (2 * extra + 1)) ++
        blockLines "combined" (posList up down)
          (combinedArr (normalizeArr lc r t) (normalizeArr rc r t) extra
            (lc.length - (2 * extra + 1)) fs)
          (sf (combinedArr (normalizeArr lc r t) (normalizeArr rc r t) extra
            (lc.length - (2 * extra + 1)) fs)) extra (lc.length - (2 * extra + 1)) := rfl
  rw [hn] at hout
  have hLA : (normalizeArr lc r t).length = up + down + 1 := by
    rw [normalizeArr_length, hl]
  have hRA : (normalizeArr rc r t).length = up + down + 1 := by
    rw [normalizeArr_length, hr]
  have hpos : (posList up down).length = up + down + 1 := posList_length up down
  have hCA : (combinedArr (normalizeArr lc r t) (normalizeArr rc r t) extra N fs).length =
      up + down + 1 := by
    rw [combinedArr_length, hLA]
  have hbound : extra + N ≤ up + down + 1 := by omega
  have hA : (blockLines "left" (posList up down) (normalizeArr lc r t)
      (sf (normalizeArr lc r t)) extra N).length = N :=
    blockLines_length (by rw [hpos]; exact hbound) (by rw [hLA]; exact hbound)
      (by rw [hsf, hLA]; exact hbound)
  have hB : (blockLines "right" (posList up down) (normalizeArr rc r t)
      (sf (normalizeArr rc r t)) extra N).length = N :=
    blockLines_length (by rw [hpos]; exact hbound) (by rw [hRA]; exact hbound)
      (by rw [hsf, hRA]; exact hbound)
  have hC : (blockLines "combined" (posList up down)
      (combinedArr (normalizeArr lc r t) (normalizeArr rc r t) extra N fs)
      (sf (combinedArr (normalizeArr lc r t) (normalizeArr rc r t) extra N fs))
      extra N).length = N :=
    blockLines_length (by rw [hpos]; exact hbound) (by rw [hCA]; exact hbound)
      (by rw [hsf, hCA]; exact hbound)
  refine ⟨?_, ?_, ?_, ?_⟩
  · rw [hout, List.length_append, List.length_append, hA, hB, hC]
    omega
  · intro i hi
    rw [hout, List.getElem?_append_left (by rw [List.length_append, hA, hB]; omega),
      List.getElem?_append_left (by rw [hA]; exact hi),
      blockLines_getElem? hi (by rw [hpos]; exact hbound) (by rw [hLA]; exact hbound)
        (by rw [hsf, hLA]; exact hbound),
      posList_getD (by omega)]
  · intro i hi
    rw [hout, List.getElem?_append_left (by rw [List.length_append, hA, hB]; omega),
      List.getElem?_append_right (by rw [hA]; omega), hA]
    have hidx : N + i - N = i := by omega
    rw [hidx,
      blockLines_getElem? hi (by rw [hpos]; exact hbound) (by rw [hRA]; exact hbound)
        (by rw [hsf, hRA]; exact hbound),
      posList_getD (by omega)]
  · intro i hi
    rw [hout, List.getElem?_append_right (by rw [List.length_append, hA, hB]; omega),
      List.length_append, hA, hB]
    have hidx : 2 * N + i - (N + N) = i := by omega
    rw [hidx,
      blockLines_getElem? hi (by rw [hpos]; exact hbound) (by rw [hCA]; exact hbound)
        (by rw [hsf, hCA]; exact hbound),
      posList_getD (by omega)]

/-- Witness for C8 (amended) at a concrete run (upstream = downstream = 3,
margin 1): the output has `3 * 4` lines. -/
theorem C8_output_blocks_amended_witness :
    (outputLines id (List.replicate 7 0) (List.replicate 7 0) 3 3 1 0 1 1).length =
      3 * ((3 + 3 + 1) - (2 * 1 + 1)) :=
  (C8_output_blocks_amended id (List.replicate 7 0) (List.replicate 7 0) 3 3 1 0 1 1
    (fun _ => rfl) rfl rfl (by decide)).1

end Gosr
